import Mathlib

/-!
# Verification of the multi-tenant UMA service (wdk-uma)

A shallow embedding of the tenant-management, request-resolution, currency
and settlement-callback logic of the repository, together with theorems
settling the specification claims C1..C10.

Modelling conventions:
* JS `Map` objects are association lists with `set`/`delete`/`get` semantics
  (`JsMap`); keys are unique in every state reachable by the modelled
  operations, so `deleteEntry` removing every matching entry coincides with
  `Map.delete`.
* JS objects held in the two cache maps are mutable references; the model
  uses an explicit heap (`List Tenant`) with indices as references, so that
  in-place mutation by `Tenant.update` is visible through aliases exactly as
  in the source.
* Machine numbers are `Nat`/`Int`/`ℚ`; `Math.round` is `⌊x + 1/2⌋`.
* Async storage calls are sequentialised; the await boundaries of
  `refreshCache` are additionally exposed as a list of observable
  intermediate states for the concurrency claim.
-/

namespace WdkUma

/-! ## JS Map as an association list -/

abbrev JsMap (β : Type) := List (String × β)

/-- `Map.prototype.get` / lookup of the first (unique) entry for a key. -/
def JsMap.getEntry {β : Type} : JsMap β → String → Option β
  | [], _ => none
  | kv :: rest, k => if kv.1 = k then some kv.2 else JsMap.getEntry rest k

/-- `Map.prototype.set`: replace the value in place if the key is present,
append otherwise. -/
def JsMap.setEntry {β : Type} : JsMap β → String → β → JsMap β
  | [], k, v => [(k, v)]
  | kv :: rest, k, v =>
      if kv.1 = k then (k, v) :: rest else kv :: JsMap.setEntry rest k v

/-- `Map.prototype.delete`: removes the entry for the key (all occurrences;
identical on the unique-key maps the operations maintain). -/
def JsMap.deleteEntry {β : Type} : JsMap β → String → JsMap β
  | [], _ => []
  | kv :: rest, k =>
      if kv.1 = k then JsMap.deleteEntry rest k
      else kv :: JsMap.deleteEntry rest k

/-- `Map.prototype.values()` as a list, in entry order. -/
def JsMap.valuesList {β : Type} (m : JsMap β) : List β := m.map (·.2)

/-! ## JS string primitives used by the code

`String.prototype.split` with a one-character separator, and
`parseInt(s, 10)`, modelled on character lists. -/

/-- `str.split(sep)` for a single-character separator. -/
def jsSplit (sep : Char) : List Char → List (List Char)
  | [] => [[]]
  | c :: rest =>
      match jsSplit sep rest with
      | [] => [[c]]
      | h :: t => if c = sep then [] :: h :: t else (c :: h) :: t

/-- A JS number that may be `NaN` (as produced by `parseInt`). -/
inductive JsNum where
  | nan : JsNum
  | val : ℚ → JsNum
deriving DecidableEq, Repr

/-- Value of a non-empty digit string. -/
def natOfDigits (cs : List Char) : Nat :=
  cs.foldl (fun a c => 10 * a + (c.toNat - '0'.toNat)) 0

/-- Sign handling of `parseInt`: strip one leading `-`/`+`, keep the
longest digit prefix of what follows. -/
def jsParseIntSigned : List Char → Bool × List Char
  | '-' :: rest => (true, rest.takeWhile (·.isDigit))
  | '+' :: rest => (false, rest.takeWhile (·.isDigit))
  | body => (false, body.takeWhile (·.isDigit))

/-- `parseInt(s, 10)`: skip leading whitespace, optional sign, then the
longest digit prefix; `NaN` when no digit follows. -/
def jsParseInt (cs : List Char) : JsNum :=
  let p := jsParseIntSigned (cs.dropWhile (·.isWhitespace))
  if p.2 = [] then JsNum.nan
  else if p.1 then JsNum.val (-(natOfDigits p.2 : ℚ))
  else JsNum.val (natOfDigits p.2 : ℚ)

/-! ## Tenant data model (src/domains/Tenant.js) -/

/-- Decrypted key material (`TenantKeys`): private keys are byte sequences,
public keys hex strings. -/
structure TenantKeys where
  signingPrivateKey : List Nat
  signingPublicKey : String
  encryptionPrivateKey : List Nat
  encryptionPublicKey : String
deriving DecidableEq, Repr

/-- Names of the three per-tenant storage partitions. -/
structure TenantTables where
  users : String
  payments : String
  utxos : String
deriving DecidableEq, Repr

/-- An in-memory `Tenant` instance (all fields the constructor sets;
`_manager` carries no data relevant to the claims and is omitted). -/
structure Tenant where
  id : String
  name : String
  domain : String
  baseUrl : String
  keys : TenantKeys
  tables : TenantTables
  currencies : List String
  payerDataOptions : List (String × Bool)
  minSendableSats : Nat
  maxSendableSats : Nat
  active : Bool
  metadata : List (String × String)
  createdAt : Nat
  updatedAt : Nat
deriving DecidableEq, Repr

/-- A JS options object passed to `new Tenant(config)`, `addTenant` or
`Tenant.update`: every field may be absent (`undefined`).  The nested
`tables` object is flattened to its three fields. -/
structure TenantConfig where
  id : Option String
  name : Option String
  domain : Option String
  baseUrl : Option String
  keys : Option TenantKeys
  tablesUsers : Option String
  tablesPayments : Option String
  tablesUtxos : Option String
  currencies : Option (List String)
  payerDataOptions : Option (List (String × Bool))
  minSendableSats : Option Nat
  maxSendableSats : Option Nat
  active : Option Bool
  metadata : Option (List (String × String))
  createdAt : Option Nat
  updatedAt : Option Nat
deriving DecidableEq, Repr

/-- A config with every field absent. -/
def emptyConfig : TenantConfig :=
  ⟨none, none, none, none, none, none, none, none,
   none, none, none, none, none, none, none, none⟩

/-- JS truthiness of an optional string (`undefined` and `""` are falsy). -/
def truthy : Option String → Bool
  | none => false
  | some s => s ≠ ""

/-- `opt || dflt` on strings (falls back on absent or empty). -/
def orDefault (o : Option String) (dflt : String) : String :=
  match o with
  | some s => if s = "" then dflt else s
  | none => dflt

def defaultPayerDataOptions : List (String × Bool) :=
  [("identifier", true), ("name", false), ("email", false), ("compliance", true)]

def dummyKeys : TenantKeys := ⟨[], "", [], ""⟩

/-- The `Tenant` constructor: applies the documented defaults.
`now` stands for `new Date()`. -/
def Tenant.ofConfig (c : TenantConfig) (now : Nat) : Tenant where
  id := c.id.getD ""
  name := c.name.getD ""
  domain := c.domain.getD ""
  baseUrl := orDefault c.baseUrl ("https://" ++ c.domain.getD "")
  keys := c.keys.getD dummyKeys
  tables :=
    { users := orDefault c.tablesUsers (c.id.getD "" ++ "_users")
      payments := orDefault c.tablesPayments (c.id.getD "" ++ "_payments")
      utxos := orDefault c.tablesUtxos (c.id.getD "" ++ "_utxos") }
  currencies := c.currencies.getD []
  payerDataOptions := c.payerDataOptions.getD defaultPayerDataOptions
  minSendableSats := c.minSendableSats.getD 1
  maxSendableSats := c.maxSendableSats.getD 10000000
  active := c.active.getD true
  metadata := c.metadata.getD []
  createdAt := c.createdAt.getD now
  updatedAt := c.updatedAt.getD now

/-- `tenant.hostname`: first dot-delimited label of the domain. -/
def Tenant.hostname (t : Tenant) : String :=
  ((jsSplit '.' t.domain.data).headD []).asString

/-- The stored public form of a tenant (`toJSON` output).  The `keys`
sub-object is kept as a JS object (association list) so that the absence of
private-key fields is a provable statement, not a typing artefact. -/
structure TenantDoc where
  id : String
  name : String
  domain : String
  baseUrl : String
  keysObj : List (String × String)
  tables : TenantTables
  currencies : List String
  payerDataOptions : List (String × Bool)
  minSendableSats : Nat
  maxSendableSats : Nat
  active : Bool
  metadata : List (String × String)
  createdAt : Nat
  updatedAt : Nat
deriving DecidableEq, Repr

/-- `Tenant.prototype.toJSON`. -/
def Tenant.toJSON (t : Tenant) : TenantDoc where
  id := t.id
  name := t.name
  domain := t.domain
  baseUrl := t.baseUrl
  keysObj :=
    [("signingPublicKey", t.keys.signingPublicKey),
     ("encryptionPublicKey", t.keys.encryptionPublicKey)]
  tables := t.tables
  currencies := t.currencies
  payerDataOptions := t.payerDataOptions
  minSendableSats := t.minSendableSats
  maxSendableSats := t.maxSendableSats
  active := t.active
  metadata := t.metadata
  createdAt := t.createdAt
  updatedAt := t.updatedAt

/-- The config `{...doc, keys}` built by `Tenant.fromDocument`: the stored
public fields plus the separately loaded full key object. -/
def configOfDoc (d : TenantDoc) (k : TenantKeys) : TenantConfig where
  id := some d.id
  name := some d.name
  domain := some d.domain
  baseUrl := some d.baseUrl
  keys := some k
  tablesUsers := some d.tables.users
  tablesPayments := some d.tables.payments
  tablesUtxos := some d.tables.utxos
  currencies := some d.currencies
  payerDataOptions := some d.payerDataOptions
  minSendableSats := some d.minSendableSats
  maxSendableSats := some d.maxSendableSats
  active := some d.active
  metadata := some d.metadata
  createdAt := some d.createdAt
  updatedAt := some d.updatedAt

/-- `Tenant.fromDocument(doc, keys)`. -/
def Tenant.fromDocument (d : TenantDoc) (k : TenantKeys) (now : Nat) : Tenant :=
  Tenant.ofConfig (configOfDoc d k) now

/-- `{...base, ...patch}` on JS objects modelled as association lists. -/
def mergeObj {β : Type} (base patch : List (String × β)) : List (String × β) :=
  patch.foldl (fun m kv => JsMap.setEntry m kv.1 kv.2) base

/-- `Tenant.prototype.update(updates)`: supplied fields replace, `tables`
and `metadata` merge, `updatedAt` always refreshes; `id` and `createdAt`
are untouched. -/
def Tenant.applyUpdate (t : Tenant) (u : TenantConfig) (now : Nat) : Tenant where
  id := t.id
  name := u.name.getD t.name
  domain := u.domain.getD t.domain
  baseUrl := u.baseUrl.getD t.baseUrl
  keys := u.keys.getD t.keys
  tables :=
    { users := u.tablesUsers.getD t.tables.users
      payments := u.tablesPayments.getD t.tables.payments
      utxos := u.tablesUtxos.getD t.tables.utxos }
  currencies := u.currencies.getD t.currencies
  payerDataOptions := u.payerDataOptions.getD t.payerDataOptions
  minSendableSats := u.minSendableSats.getD t.minSendableSats
  maxSendableSats := u.maxSendableSats.getD t.maxSendableSats
  active := u.active.getD t.active
  metadata := match u.metadata with
    | some patch => mergeObj t.metadata patch
    | none => t.metadata
  createdAt := t.createdAt
  updatedAt := now

/-- `tenant.isActive()`. -/
def Tenant.isActive (t : Tenant) : Bool := t.active = true

/-! ## Durable store (Mongo collections used by TenantManager) -/

/-- A document of the `tenant_keys` collection. -/
structure KeyDoc where
  tenantId : String
  keys : TenantKeys
  updatedAt : Nat
deriving DecidableEq, Repr

/-- The two collections the manager touches.  `encryptKeys`/`decryptKeys`
are the identity defaults of the constructor. -/
structure DbState where
  tenants : List TenantDoc
  tenantKeys : List KeyDoc
deriving DecidableEq, Repr

/-- `findOne` on the tenants collection. -/
def DbState.findTenantDoc (db : DbState) (p : TenantDoc → Bool) : Option TenantDoc :=
  db.tenants.find? p

/-- `updateOne({id}, {$set: doc})`: replaces the (full) field set of the
first document with that id. -/
def dbReplaceTenantDoc : List TenantDoc → String → TenantDoc → List TenantDoc
  | [], _, _ => []
  | x :: rest, id, d =>
      if x.id = id then d :: rest else x :: dbReplaceTenantDoc rest id d

/-- `_saveKeys`: upsert of the key document for a tenant. -/
def saveKeysDb : List KeyDoc → String → TenantKeys → Nat → List KeyDoc
  | [], tid, k, now => [⟨tid, k, now⟩]
  | x :: rest, tid, k, now =>
      if x.tenantId = tid then ⟨tid, k, now⟩ :: rest
      else x :: saveKeysDb rest tid k now

/-- `_loadKeys`: decrypted keys for a tenant, absent when no key document
exists. -/
def loadKeys (db : DbState) (tid : String) : Option TenantKeys :=
  (db.tenantKeys.find? (fun d => d.tenantId = tid)).map (·.keys)

/-! ## TenantManager (src/domains/TenantManager.js)

The manager state: the store, a heap of allocated `Tenant` objects
(JS references are heap indices, mutation is `List.set`), and the two
in-memory cache maps holding references. -/

structure TenantManager where
  db : DbState
  heap : List Tenant
  cacheById : JsMap Nat
  cacheByDomain : JsMap Nat
deriving DecidableEq, Repr

/-- A manager over an empty store with empty caches. -/
def TenantManager.empty : TenantManager := ⟨⟨[], []⟩, [], [], []⟩

/-- Dereference a cached tenant by id. -/
def TenantManager.cachedById (m : TenantManager) (id : String) : Option Tenant :=
  (JsMap.getEntry m.cacheById id).bind (fun r => m.heap[r]?)

/-- Dereference a cached tenant by domain. -/
def TenantManager.cachedByDomain (m : TenantManager) (d : String) : Option Tenant :=
  (JsMap.getEntry m.cacheByDomain d).bind (fun r => m.heap[r]?)

/-- `getActiveTenants()`: `Array.from(this._cache.values())`, dereferenced. -/
def TenantManager.getActiveTenants (m : TenantManager) : List Tenant :=
  m.cacheById.filterMap (fun kv => m.heap[kv.2]?)

/-- Error taxonomy of the directory: the `throw new Error(...)` sites of
`addTenant`, classified as the spec's ValidationError / ConflictError. -/
inductive MgrError where
  | validation : String → MgrError
  | conflict : String → MgrError
deriving DecidableEq, Repr

deriving instance DecidableEq for Except

/-- Whether an `addTenant` outcome is a uniqueness conflict. -/
def isConflictOutcome : Except MgrError Nat → Bool
  | .error (.conflict _) => true
  | _ => false

/-- `getTenant(tenantId, useCache)`: cache-first, then storage plus keys;
caches the freshly allocated object when it is active.  Returns the
(possibly grown) state and a reference. -/
def TenantManager.getTenant (m : TenantManager) (tenantId : String)
    (useCache : Bool) (now : Nat) : TenantManager × Option Nat :=
  match useCache, JsMap.getEntry m.cacheById tenantId with
  | true, some r => (m, some r)
  | _, _ =>
    match m.db.findTenantDoc (fun d => d.id = tenantId) with
    | none => (m, none)
    | some doc =>
      match loadKeys m.db tenantId with
      | none => (m, none)
      | some k =>
        let t := Tenant.fromDocument doc k now
        let r := m.heap.length
        let heap' := m.heap ++ [t]
        if t.isActive then
          ({ m with
              heap := heap'
              cacheById := JsMap.setEntry m.cacheById t.id r
              cacheByDomain := JsMap.setEntry m.cacheByDomain t.domain r },
           some r)
        else ({ m with heap := heap' }, some r)

/-- `getTenantByDomain(domain, useCache)`. -/
def TenantManager.getTenantByDomain (m : TenantManager) (domain : String)
    (useCache : Bool) (now : Nat) : TenantManager × Option Nat :=
  match useCache, JsMap.getEntry m.cacheByDomain domain with
  | true, some r => (m, some r)
  | _, _ =>
    match m.db.findTenantDoc (fun d => d.domain = domain) with
    | none => (m, none)
    | some doc =>
      match loadKeys m.db doc.id with
      | none => (m, none)
      | some k =>
        let t := Tenant.fromDocument doc k now
        let r := m.heap.length
        let heap' := m.heap ++ [t]
        if t.isActive then
          ({ m with
              heap := heap'
              cacheById := JsMap.setEntry m.cacheById t.id r
              cacheByDomain := JsMap.setEntry m.cacheByDomain t.domain r },
           some r)
        else ({ m with heap := heap' }, some r)

/-- `addTenant(config)`: validation, existence query against storage,
persist public record and keys, cache when active.  On error the state is
returned unchanged (the code throws before any write). -/
def TenantManager.addTenant (m : TenantManager) (c : TenantConfig)
    (now : Nat) : TenantManager × Except MgrError Nat :=
  if ¬ truthy c.id then (m, .error (.validation "Tenant id is required"))
  else if ¬ truthy c.name then (m, .error (.validation "Tenant name is required"))
  else if ¬ truthy c.domain then (m, .error (.validation "Tenant domain is required"))
  else if c.keys.isNone then (m, .error (.validation "Tenant keys are required"))
  else
    match m.db.findTenantDoc
        (fun d => d.id = c.id.getD "" ∨ d.domain = c.domain.getD "") with
    | some existing =>
        if existing.id = c.id.getD "" then
          (m, .error (.conflict "id"))
        else (m, .error (.conflict "domain"))
    | none =>
        let t := Tenant.ofConfig c now
        let db1 : DbState :=
          { tenants := m.db.tenants ++ [t.toJSON]
            tenantKeys := saveKeysDb m.db.tenantKeys t.id (c.keys.getD dummyKeys) now }
        let r := m.heap.length
        let heap' := m.heap ++ [t]
        if t.isActive then
          ({ db := db1
             heap := heap'
             cacheById := JsMap.setEntry m.cacheById t.id r
             cacheByDomain := JsMap.setEntry m.cacheByDomain t.domain r },
           .ok r)
        else ({ db := db1, heap := heap'
                cacheById := m.cacheById, cacheByDomain := m.cacheByDomain },
              .ok r)

/-- `updateTenant(tenantId, updates)`: authoritative (non-cache) load,
in-place mutation of the loaded object, persist, then cache
reconciliation. -/
def TenantManager.updateTenant (m : TenantManager) (tenantId : String)
    (u : TenantConfig) (now : Nat) : TenantManager × Option Nat :=
  match m.getTenant tenantId false now with
  | (m1, none) => (m1, none)
  | (m1, some r) =>
    match m1.heap[r]? with
    | none => (m1, none)
    | some t =>
      let oldDomain := t.domain
      let t' := t.applyUpdate u now
      let heap2 := m1.heap.set r t'
      let db2 : DbState :=
        { tenants := dbReplaceTenantDoc m1.db.tenants tenantId t'.toJSON
          tenantKeys :=
            match u.keys with
            | some k => saveKeysDb m1.db.tenantKeys tenantId k now
            | none => m1.db.tenantKeys }
      if t'.isActive then
        let cbd0 :=
          if oldDomain ≠ t'.domain then
            JsMap.deleteEntry m1.cacheByDomain oldDomain
          else m1.cacheByDomain
        ({ db := db2, heap := heap2
           cacheById := JsMap.setEntry m1.cacheById t'.id r
           cacheByDomain := JsMap.setEntry cbd0 t'.domain r },
         some r)
      else
        ({ db := db2, heap := heap2
           cacheById := JsMap.deleteEntry m1.cacheById t'.id
           cacheByDomain := JsMap.deleteEntry m1.cacheByDomain t'.domain },
         some r)

/-- `deactivateTenant(tenantId)`. -/
def TenantManager.deactivateTenant (m : TenantManager) (tenantId : String)
    (now : Nat) : TenantManager × Option Nat :=
  m.updateTenant tenantId { emptyConfig with active := some false } now

/-- The loop body of `refreshCache`: walk the active documents, load keys,
allocate and insert; documents whose keys are absent are skipped. -/
def refreshLoop (db : DbState) (now : Nat) :
    List TenantDoc → List Tenant → JsMap Nat → JsMap Nat →
    List Tenant × JsMap Nat × JsMap Nat
  | [], h, cid, cbd => (h, cid, cbd)
  | doc :: rest, h, cid, cbd =>
    match loadKeys db doc.id with
    | none => refreshLoop db now rest h cid cbd
    | some k =>
      let t := Tenant.fromDocument doc k now
      refreshLoop db now rest (h ++ [t])
        (JsMap.setEntry cid t.id h.length)
        (JsMap.setEntry cbd t.domain h.length)

/-- `refreshCache()`: clears both maps, then repopulates from the
currently active documents whose keys load. -/
def TenantManager.refreshCache (m : TenantManager) (now : Nat) : TenantManager :=
  let step := refreshLoop m.db now (m.db.tenants.filter (·.active)) m.heap [] []
  { db := m.db, heap := step.1, cacheById := step.2.1, cacheByDomain := step.2.2 }

/-- The intermediate cache states of the `refreshCache` loop, one per await
boundary of the loop body (before the storage query resolves, and after
each key load). -/
def refreshLoopStates (db : DbState) (now : Nat) :
    List TenantDoc → List Tenant → JsMap Nat → JsMap Nat →
    List (List Tenant × JsMap Nat × JsMap Nat)
  | [], h, cid, cbd => [(h, cid, cbd)]
  | doc :: rest, h, cid, cbd =>
    (h, cid, cbd) ::
      (match loadKeys db doc.id with
       | none => refreshLoopStates db now rest h cid cbd
       | some k =>
         let t := Tenant.fromDocument doc k now
         refreshLoopStates db now rest (h ++ [t])
           (JsMap.setEntry cid t.id h.length)
           (JsMap.setEntry cbd t.domain h.length))

/-- The manager states a concurrent reader can observe while a
`refreshCache()` call is in flight: the maps are cleared in place first
(synchronously), then execution suspends at the storage query and at each
key load. -/
def TenantManager.refreshObservableStates (m : TenantManager) (now : Nat) :
    List TenantManager :=
  (refreshLoopStates m.db now (m.db.tenants.filter (·.active)) m.heap [] []).map
    (fun s => { db := m.db, heap := s.1, cacheById := s.2.1, cacheByDomain := s.2.2 })

/-! ## Request tenant resolution (server bootstrap `onRequest` hook) -/

/-- Outcome of the `onRequest` hook for one request. -/
inductive ResolveOutcome where
  | passThrough : ResolveOutcome
  | rejected : Nat → String → String → ResolveOutcome
  | attached : Tenant → ResolveOutcome
deriving DecidableEq, Repr

/-- First dot-delimited label of the request host. -/
def hostLabel (host : String) : String :=
  ((jsSplit '.' host.data).headD []).asString

/-- The hook body: two-character gate, then a scan of the captured
active-tenant array for a matching `hostname`. -/
def resolveTenant (activeTenants : List Tenant) (host : String) : ResolveOutcome :=
  let sub := hostLabel host
  if sub.length ≠ 2 then .passThrough
  else
    match activeTenants.find? (fun t => t.hostname = sub) with
    | none => .rejected 404 "ERROR" "Not valid tenant"
    | some t => .attached t

/-! ## CurrencyHelper (src/uma/currency-helper.js)

Pure conversion logic over ℚ; `Math.round` rounds half toward +∞. -/

/-- `Math.round`. -/
def jsRound (x : ℚ) : ℤ := ⌊x + 1 / 2⌋

/-- `convertToMsats(amount, currency, getConversionRate)`. -/
def convertToMsats (amount : ℚ) (currency : String)
    (getConversionRate : String → String → ℚ) : ℚ :=
  if currency = "SAT" then amount * 1000
  else if currency = "BTC" then amount * 1000
  else (jsRound (amount * getConversionRate currency "SAT" * 1000) : ℚ)

/-- `convertFromMsats(msats, targetCurrency, getConversionRate)`. -/
def convertFromMsats (msats : ℚ) (targetCurrency : String)
    (getConversionRate : String → String → ℚ) : ℚ :=
  if targetCurrency = "SAT" then (jsRound (msats / 1000) : ℚ)
  else if targetCurrency = "BTC" then (jsRound (msats / 1000) : ℚ)
  else (jsRound (msats / 1000 * getConversionRate "SAT" targetCurrency) : ℚ)

/-- The wire value found in `payRequest.amount`. -/
inductive JsValue where
  | num : ℚ → JsValue
  | str : String → JsValue
  | other : JsValue
deriving DecidableEq, Repr

/-- `parseAmount(payRequest)` (total — the code never throws): number
passes through; a string is split on `.` into `amount` or
`amount.CURRENCY` and each part fed to `parseInt(·, 10)`; anything else
yields zero with no currency. -/
def parseAmount (amount : JsValue) : JsNum × Option String :=
  match amount with
  | .num q => (.val q, none)
  | .str s =>
      let parts := jsSplit '.' s.data
      match parts with
      | [p0, p1] => (jsParseInt p0, some p1.asString)
      | _ => (jsParseInt s.data, none)
  | .other => (.val 0, none)

/-! ## Settlement-callback handler (UtxoCallbackHandler + TenantUmaConfig)

The handler is modelled after parsing and signature verification, which
are delegated to the external protocol library: the parse outcome and the
verification verdict are inputs.  The recording sink is the
`TenantUmaConfig` built by `tenant.getUmaConfig()`. -/

/-- A parsed `PostTransactionCallback`. -/
structure UtxoCallback where
  utxos : List (String × Int)
  vaspDomain : String
  signatureNonce : String
  signatureTimestamp : Nat
deriving DecidableEq, Repr

/-- A Fastify reply as the handlers produce it: status code plus the
structured JSON body (`status`, optional `reason`). -/
structure HttpReply where
  statusCode : Nat
  status : String
  reason : Option String
deriving DecidableEq, Repr

/-- `sendError(reply, statusCode, reason)` from BaseHandler. -/
def sendError (statusCode : Nat) (reason : String) : HttpReply :=
  ⟨statusCode, "ERROR", some reason⟩

/-- The methods and getters defined in `class Tenant` (Tenant.js), i.e. the
properties of `Tenant.prototype`. -/
def tenantProtoMethods : List String :=
  ["hostname", "db", "toJSON", "isActive", "update", "addUser", "getUser",
   "getUsers", "savePayment", "getReceiverByCallbackId", "recordUtxos",
   "getUmaConfig"]

/-- The instance fields the `Tenant` constructor assigns. -/
def tenantInstanceFields : List String :=
  ["_manager", "id", "name", "domain", "baseUrl", "keys", "tables",
   "currencies", "payerDataOptions", "minSendableSats", "maxSendableSats",
   "active", "metadata", "createdAt", "updatedAt"]

/-- Whether property access `tenantObj.name` finds anything. -/
def tenantHasProp (name : String) : Bool :=
  tenantProtoMethods.contains name ∨ tenantInstanceFields.contains name

/-- A JS runtime error. -/
inductive JsError where
  | typeError : String → JsError
deriving DecidableEq, Repr

/-- `TenantUmaConfig.prototype.recordUtxos(utxoData)`: the body is
`return this.tenant.recordPayment(utxoData)`; calling a property that the
tenant object does not have throws a TypeError. -/
def TenantUmaConfig.recordUtxos (_t : Tenant) (_utxoData : UtxoCallback) :
    Except JsError Unit :=
  if tenantHasProp "recordPayment" then
    -- would dispatch to the tenant method of that name; `Tenant` defines
    -- no such method or field, so this branch is not reachable
    .ok ()
  else .error (.typeError "this.tenant.recordPayment is not a function")

/-- `UtxoCallbackHandler.prototype.handle`, from the parse outcome and the
signature verdict on: `config.onUtxosReceived` is the `TenantUmaConfig`
override (a no-op that succeeds), then `config.recordUtxos` runs inside the
outer try/catch. -/
def UtxoCallbackHandler.handle (parsed : Option UtxoCallback)
    (signatureValid : Bool) (tenant : Tenant) : HttpReply :=
  match parsed with
  | none => sendError 400 "Invalid callback format"
  | some cb =>
    if ¬ signatureValid then sendError 400 "Invalid callback signature"
    else
      match TenantUmaConfig.recordUtxos tenant cb with
      | .error _ => sendError 500 "Internal server error"
      | .ok _ => ⟨200, "OK", none⟩

/-! ## Demonstration fixtures -/

def cfgAB : TenantConfig :=
  { emptyConfig with
      id := some "t-ab", name := some "AB VASP",
      domain := some "ab.example.com", keys := some dummyKeys }

def cfgCD : TenantConfig :=
  { emptyConfig with
      id := some "t-cd", name := some "CD VASP",
      domain := some "cd.example.com", keys := some dummyKeys }

def demoTenantAB : Tenant := Tenant.ofConfig cfgAB 0

def demoTenantCD : Tenant := Tenant.ofConfig cfgCD 0

/-! ## Supporting lemmas: JsMap -/

theorem getEntry_setEntry_self {β : Type} (m : JsMap β) (k : String) (v : β) :
    JsMap.getEntry (JsMap.setEntry m k v) k = some v := by
  induction m with
  | nil => simp [JsMap.setEntry, JsMap.getEntry]
  | cons kv rest ih =>
    by_cases h : kv.1 = k
    · simp [JsMap.setEntry, JsMap.getEntry, h]
    · simp [JsMap.setEntry, JsMap.getEntry, h, ih]

theorem getEntry_setEntry_ne {β : Type} (m : JsMap β) (k k' : String) (v : β)
    (h : k' ≠ k) :
    JsMap.getEntry (JsMap.setEntry m k v) k' = JsMap.getEntry m k' := by
  induction m with
  | nil => simp [JsMap.setEntry, JsMap.getEntry, Ne.symm h]
  | cons kv rest ih =>
    by_cases hk : kv.1 = k
    · subst hk
      simp [JsMap.setEntry, JsMap.getEntry, Ne.symm h]
    · by_cases hk' : kv.1 = k'
      · simp [JsMap.setEntry, JsMap.getEntry, hk, hk', h]
      · simp [JsMap.setEntry, JsMap.getEntry, hk, hk', ih]

theorem getEntry_deleteEntry_self {β : Type} (m : JsMap β) (k : String) :
    JsMap.getEntry (JsMap.deleteEntry m k) k = none := by
  induction m with
  | nil => simp [JsMap.deleteEntry, JsMap.getEntry]
  | cons kv rest ih =>
    by_cases h : kv.1 = k
    · simp [JsMap.deleteEntry, JsMap.getEntry, h, ih]
    · simp [JsMap.deleteEntry, JsMap.getEntry, h, ih]

theorem getEntry_deleteEntry_ne {β : Type} (m : JsMap β) (k k' : String)
    (h : k' ≠ k) :
    JsMap.getEntry (JsMap.deleteEntry m k) k' = JsMap.getEntry m k' := by
  induction m with
  | nil => simp [JsMap.deleteEntry, JsMap.getEntry]
  | cons kv rest ih =>
    by_cases hk : kv.1 = k
    · subst hk
      simp [JsMap.deleteEntry, JsMap.getEntry, Ne.symm h, ih]
    · by_cases hk' : kv.1 = k'
      · simp [JsMap.deleteEntry, JsMap.getEntry, hk, hk', h]
      · simp [JsMap.deleteEntry, JsMap.getEntry, hk, hk', ih]

theorem mem_setEntry_self {β : Type} (m : JsMap β) (k : String) (v : β) :
    (k, v) ∈ JsMap.setEntry m k v := by
  induction m with
  | nil => simp [JsMap.setEntry]
  | cons kv rest ih =>
    by_cases h : kv.1 = k
    · simp [JsMap.setEntry, h]
    · simp [JsMap.setEntry, h]
      right
      exact ih

/-! ## Supporting lemmas: resolver -/

theorem resolveTenant_long_token (ts : List Tenant) (host : String)
    (h : (hostLabel host).length ≠ 2) :
    resolveTenant ts host = .passThrough := by
  simp [resolveTenant, h]

theorem resolveTenant_match (ts : List Tenant) (host : String)
    (h2 : (hostLabel host).length = 2)
    (hex : ∃ t ∈ ts, t.hostname = hostLabel host) :
    ∃ t ∈ ts, resolveTenant ts host = .attached t ∧ t.hostname = hostLabel host := by
  have hsome : (ts.find? (fun t => t.hostname = hostLabel host)).isSome := by
    rw [List.find?_isSome]
    obtain ⟨t, ht, hh⟩ := hex
    exact ⟨t, ht, by simp [hh]⟩
  obtain ⟨t, hfind⟩ := Option.isSome_iff_exists.mp hsome
  refine ⟨t, List.mem_of_find?_eq_some hfind, ?_, ?_⟩
  · simp [resolveTenant, h2, hfind]
  · have := List.find?_some hfind
    simpa using this

theorem resolveTenant_no_match (ts : List Tenant) (host : String)
    (h2 : (hostLabel host).length = 2)
    (hno : ∀ t ∈ ts, t.hostname ≠ hostLabel host) :
    resolveTenant ts host = .rejected 404 "ERROR" "Not valid tenant" := by
  have hfind : ts.find? (fun t => t.hostname = hostLabel host) = none := by
    rw [List.find?_eq_none]
    intro t ht
    simpa using hno t ht
  simp [resolveTenant, h2, hfind]

/-! ## Claim theorems -/

/-- C1: the claim asserts that a settlement callback whose body parses and
whose signature verifies is recorded through `config.recordUtxos` and
acknowledged with HTTP 200 `status:"OK"`.  The code instead answers
HTTP 500 `Internal server error` for every such request: the
`TenantUmaConfig.recordUtxos` sink invokes `this.tenant.recordPayment`, a
method the `Tenant` class does not define, so the recording step throws a
TypeError that the handler's outer catch converts into a 500 reply. -/
theorem utxocallback_valid_signature_yields_500 (t : Tenant) (cb : UtxoCallback) :
    UtxoCallbackHandler.handle (some cb) true t
      = sendError 500 "Internal server error"
    ∧ UtxoCallbackHandler.handle (some cb) true t ≠ ⟨200, "OK", none⟩ := by
  have hprop : tenantHasProp "recordPayment" = false := by decide
  constructor
  · simp [UtxoCallbackHandler.handle, TenantUmaConfig.recordUtxos, hprop]
  · simp [UtxoCallbackHandler.handle, TenantUmaConfig.recordUtxos, hprop, sendError]

/-- C2: tenant resolution extracts the first dot-delimited label of the
host; a label that is not exactly two characters passes through
unresolved; a two-character label matching some active tenant's
`hostname` attaches that tenant; a two-character label matching no active
tenant is rejected with 404 `status:"ERROR", reason:"Not valid tenant"`.
With tenants for `ab.example.com` and `cd.example.com`, host
`ab.example.com` resolves to the first tenant and `abc.example.com`
passes through as a three-character token. -/
theorem tenant_resolution_spec :
    (∀ (ts : List Tenant) (host : String), (hostLabel host).length ≠ 2 →
        resolveTenant ts host = .passThrough)
    ∧ (∀ (ts : List Tenant) (host : String), (hostLabel host).length = 2 →
        (∃ t ∈ ts, t.hostname = hostLabel host) →
        ∃ t ∈ ts, resolveTenant ts host = .attached t
          ∧ t.hostname = hostLabel host)
    ∧ (∀ (ts : List Tenant) (host : String), (hostLabel host).length = 2 →
        (∀ t ∈ ts, t.hostname ≠ hostLabel host) →
        resolveTenant ts host = .rejected 404 "ERROR" "Not valid tenant")
    ∧ resolveTenant [demoTenantAB, demoTenantCD] "ab.example.com"
        = .attached demoTenantAB
    ∧ resolveTenant [demoTenantAB, demoTenantCD] "abc.example.com"
        = .passThrough := by
  refine ⟨resolveTenant_long_token, resolveTenant_match,
          resolveTenant_no_match, ?_, ?_⟩
  · decide
  · decide

/-- Witness for C2: the rejection branch applied to a concrete
two-character host that matches no tenant. -/
theorem tenant_resolution_spec_witness :
    resolveTenant [demoTenantAB, demoTenantCD] "zz.example.com"
      = .rejected 404 "ERROR" "Not valid tenant" := by
  exact tenant_resolution_spec.2.2.1 [demoTenantAB, demoTenantCD]
    "zz.example.com" (by decide) (by decide)

/-! ## Supporting lemmas: string splitting and parseInt -/

def digitChars : List Char := ['0', '1', '2', '3', '4', '5', '6', '7', '8', '9']

theorem digit_isDigit {c : Char} (h : c ∈ digitChars) : c.isDigit = true := by
  fin_cases h <;> decide

theorem digit_not_ws {c : Char} (h : c ∈ digitChars) : c.isWhitespace = false := by
  fin_cases h <;> decide

theorem digit_ne_dot {c : Char} (h : c ∈ digitChars) : c ≠ '.' := by
  fin_cases h <;> decide

theorem digit_ne_minus {c : Char} (h : c ∈ digitChars) : c ≠ '-' := by
  fin_cases h <;> decide

theorem digit_ne_plus {c : Char} (h : c ∈ digitChars) : c ≠ '+' := by
  fin_cases h <;> decide

theorem takeWhile_of_all {p : Char → Bool} :
    ∀ cs : List Char, (∀ c ∈ cs, p c = true) → cs.takeWhile p = cs := by
  intro cs
  induction cs with
  | nil => intro _; rfl
  | cons c cr ih =>
    intro h
    have hc : p c = true := h c (List.mem_cons_self c cr)
    simp [List.takeWhile_cons, hc, ih (fun x hx => h x (List.mem_cons_of_mem c hx))]

theorem jsSplit_ne_nil (sep : Char) : ∀ cs : List Char, jsSplit sep cs ≠ [] := by
  intro cs
  induction cs with
  | nil => simp [jsSplit]
  | cons c cr ih =>
    rcases hsp : jsSplit sep cr with _ | ⟨h, t⟩
    · exact absurd hsp ih
    · simp [jsSplit, hsp]
      split <;> simp

theorem jsSplit_no_sep (sep : Char) :
    ∀ cs : List Char, sep ∉ cs → jsSplit sep cs = [cs] := by
  intro cs
  induction cs with
  | nil => intro _; rfl
  | cons c cr ih =>
    intro h
    have hc : c ≠ sep := fun hcs => h (hcs ▸ List.mem_cons_self c cr)
    have hcr : sep ∉ cr := fun hm => h (List.mem_cons_of_mem c hm)
    simp [jsSplit, ih hcr, hc]

theorem jsSplit_sep_append (sep : Char) :
    ∀ cs code : List Char, sep ∉ cs →
      jsSplit sep (cs ++ sep :: code) = cs :: jsSplit sep code := by
  intro cs code
  induction cs with
  | nil =>
    intro _
    rcases hsp : jsSplit sep code with _ | ⟨h, t⟩
    · exact absurd hsp (jsSplit_ne_nil sep code)
    · simp [jsSplit, hsp]
  | cons c cr ih =>
    intro h
    have hc : c ≠ sep := fun hcs => h (hcs ▸ List.mem_cons_self c cr)
    have hcr : sep ∉ cr := fun hm => h (List.mem_cons_of_mem c hm)
    have hih := ih hcr
    show jsSplit sep (c :: (cr ++ sep :: code)) = (c :: cr) :: jsSplit sep code
    simp only [jsSplit]
    rw [hih]
    simp [hc]

theorem jsParseIntSigned_default (c : Char) (cr : List Char)
    (hm : c ≠ '-') (hp : c ≠ '+') :
    jsParseIntSigned (c :: cr) = (false, (c :: cr).takeWhile (·.isDigit)) := by
  unfold jsParseIntSigned
  split
  · rename_i heq
    rw [List.cons.injEq] at heq
    exact absurd heq.1 hm
  · rename_i heq
    rw [List.cons.injEq] at heq
    exact absurd heq.1 hp
  · rfl

theorem jsParseInt_digits (cs : List Char) (hne : cs ≠ [])
    (hd : ∀ c ∈ cs, c ∈ digitChars) :
    jsParseInt cs = .val (natOfDigits cs) := by
  obtain ⟨c, cr, rfl⟩ := List.exists_cons_of_ne_nil hne
  have hmem : c ∈ digitChars := hd c (List.mem_cons_self c cr)
  have hdrop : (c :: cr).dropWhile (·.isWhitespace) = c :: cr := by
    simp [List.dropWhile_cons, digit_not_ws hmem]
  have htake : (c :: cr).takeWhile (·.isDigit) = c :: cr :=
    takeWhile_of_all (c :: cr) (fun x hx => digit_isDigit (hd x hx))
  have hsigned := jsParseIntSigned_default c cr
    (digit_ne_minus hmem) (digit_ne_plus hmem)
  rw [htake] at hsigned
  simp [jsParseInt, hdrop, hsigned]

/-- C8 counterexample: the claim says every input that fails to parse
yields amount 0 with no currency; but a non-numeric string yields
`parseInt` NaN, not 0: `parseAmount("abc") = (NaN, null)`. -/
theorem parseAmount_nonnumeric_not_zero :
    parseAmount (.str "abc") = (JsNum.nan, none)
    ∧ (JsNum.nan : JsNum) ≠ JsNum.val 0 := by
  constructor
  · decide
  · decide

/-- C8 (amended): `parseAmount` is a total function (never throws).  A
numeric input yields that number with no currency; a digit string yields
its integer value with no currency; `"<digits>.<CODE>"` yields the integer
paired with the code; a non-number non-string value yields 0 with no
currency.  A non-numeric string, however, yields NaN (the `parseInt`
result), not 0. -/
theorem parseAmount_characterisation :
    (∀ q : ℚ, parseAmount (.num q) = (.val q, none))
    ∧ parseAmount .other = (.val 0, none)
    ∧ (∀ cs : List Char, cs ≠ [] → (∀ c ∈ cs, c ∈ digitChars) →
        parseAmount (.str ⟨cs⟩) = (.val (natOfDigits cs), none))
    ∧ (∀ cs code : List Char, cs ≠ [] → (∀ c ∈ cs, c ∈ digitChars) →
        '.' ∉ code →
        parseAmount (.str ⟨cs ++ '.' :: code⟩)
          = (.val (natOfDigits cs), some code.asString))
    ∧ parseAmount (.str "abc") = (JsNum.nan, none) := by
  refine ⟨fun q => rfl, rfl, ?_, ?_, by decide⟩
  · intro cs hne hd
    have hnodot : '.' ∉ cs := fun hm => digit_ne_dot (hd _ hm) rfl
    have hsp : jsSplit '.' cs = [cs] := jsSplit_no_sep '.' cs hnodot
    simp [parseAmount, hsp, jsParseInt_digits cs hne hd]
  · intro cs code hne hd hnodotcode
    have hnodot : '.' ∉ cs := fun hm => digit_ne_dot (hd _ hm) rfl
    have hsp : jsSplit '.' (cs ++ '.' :: code) = [cs, code] := by
      rw [jsSplit_sep_append '.' cs code hnodot,
          jsSplit_no_sep '.' code hnodotcode]
    simp [parseAmount, hsp, jsParseInt_digits cs hne hd]

/-- Witness for C8 (amended): the digit-and-code branch at
`"45.USD"`, via the characterisation theorem. -/
theorem parseAmount_characterisation_witness :
    parseAmount (.str "45.USD") = (.val 45, some "USD") := by
  have h := parseAmount_characterisation.2.2.2.1
    ['4', '5'] ['U', 'S', 'D'] (by decide) (by decide) (by decide)
  simpa using h

/-! ## Supporting lemmas: rounding -/

/-- Double-rounding core: when each smallest currency unit is worth at
least one millisatoshi (`1 ≤ s` for `s` the msat-per-unit factor), the
nested rounds cancel exactly. -/
theorem double_round_cancel (a m : ℤ) (s : ℚ) (hs : 1 ≤ s)
    (hm : m = ⌊(a : ℚ) * s + 1 / 2⌋) :
    ⌊(m : ℚ) / s + 1 / 2⌋ = a := by
  have hspos : (0 : ℚ) < s := lt_of_lt_of_le one_pos hs
  have hub : (m : ℚ) ≤ (a : ℚ) * s + 1 / 2 := hm ▸ Int.floor_le _
  have hlb : (a : ℚ) * s + 1 / 2 < (m : ℚ) + 1 := hm ▸ Int.lt_floor_add_one _
  rw [Int.floor_eq_iff]
  constructor
  · rw [← sub_le_iff_le_add, le_div_iff₀ hspos]
    nlinarith
  · rcases eq_or_lt_of_le hs with hseq | hslt
    · have hm_le : m ≤ a := by
        have h1 : (m : ℚ) ≤ (a : ℚ) + 1 / 2 := by rw [← hseq] at hub; linarith
        by_contra hgt
        push_neg at hgt
        have h2 : (a : ℚ) + 1 ≤ (m : ℚ) := by exact_mod_cast hgt
        linarith
      have h3 : (m : ℚ) ≤ (a : ℚ) := by exact_mod_cast hm_le
      rw [← hseq, div_one]
      linarith
    · rw [div_add' _ _ _ (ne_of_gt hspos), div_lt_iff₀ hspos]
      nlinarith

/-- A consistent rate provider with a currency whose smallest unit is worth
one millionth of a satoshi. -/
def tinyRateProvider : String → String → ℚ :=
  fun fromCurrency _ => if fromCurrency = "XTX" then 1 / 1000000 else 1000000

/-- C7 counterexample: the claim promises the msat round trip returns the
amount within integer rounding for every currency and consistent rate
provider; with a reciprocal pair of rates worth `10⁻⁶` SAT per unit,
400 units convert to 0 msats and back to 0, off by 400. -/
theorem currency_roundtrip_fails_for_small_rate :
    tinyRateProvider "XTX" "SAT" * tinyRateProvider "SAT" "XTX" = 1
    ∧ tinyRateProvider "SAT" "XTX" = 1 / tinyRateProvider "XTX" "SAT"
    ∧ convertToMsats 400 "XTX" tinyRateProvider = 0
    ∧ convertFromMsats (convertToMsats 400 "XTX" tinyRateProvider) "XTX"
        tinyRateProvider = 0
    ∧ ¬ |convertFromMsats (convertToMsats 400 "XTX" tinyRateProvider) "XTX"
          tinyRateProvider - 400| ≤ 1 := by
  have hxs : ¬ ("XTX" : String) = "SAT" := by decide
  have hxb : ¬ ("XTX" : String) = "BTC" := by decide
  have hsx : ¬ ("SAT" : String) = "XTX" := by decide
  have hto : tinyRateProvider "XTX" "SAT" = 1 / 1000000 := by
    unfold tinyRateProvider; rw [if_pos rfl]
  have hfrom : tinyRateProvider "SAT" "XTX" = 1000000 := by
    unfold tinyRateProvider; rw [if_neg hsx]
  have h1 : convertToMsats 400 "XTX" tinyRateProvider = 0 := by
    unfold convertToMsats
    rw [if_neg hxs, if_neg hxb, hto]
    have hz : jsRound (400 * (1 / 1000000 : ℚ) * 1000) = 0 := by
      unfold jsRound
      rw [Int.floor_eq_iff] <;> norm_num
    rw [hz]
    norm_num
  have h2 : convertFromMsats 0 "XTX" tinyRateProvider = 0 := by
    unfold convertFromMsats
    rw [if_neg hxs, if_neg hxb, hfrom]
    have hz : jsRound ((0 : ℚ) / 1000 * 1000000) = 0 := by
      unfold jsRound
      rw [Int.floor_eq_iff] <;> norm_num
    rw [hz]
    norm_num
  refine ⟨by rw [hto, hfrom]; norm_num, by rw [hto, hfrom]; norm_num,
          h1, by rw [h1]; exact h2, ?_⟩
  rw [h1, h2]
  norm_num

/-- C7 (amended): the round trip
`convertFromMsats(convertToMsats(a, C), C)` is exact — hence within
integer rounding — for every integer amount `a` whenever the rate provider
is consistent (`SAT→C` the reciprocal of `C→SAT`) and the `C→SAT` rate
makes one smallest unit of `C` worth at least one millisatoshi
(`1 ≤ 1000·r`); for `C = SAT` (and `BTC`) the round trip is exact
unconditionally.  For smaller rates the result can differ from the amount
by more than any rounding slack (see the counterexample). -/
theorem currency_roundtrip_exact (gr : String → String → ℚ) (C : String)
    (r : ℚ) (a : ℤ)
    (hCs : C ≠ "SAT") (hCb : C ≠ "BTC")
    (hr : gr C "SAT" = r) (hrInv : gr "SAT" C = 1 / r)
    (hbig : 1 ≤ 1000 * r) :
    convertFromMsats (convertToMsats (a : ℚ) C gr) C gr = (a : ℚ)
    ∧ (∀ b : ℤ, convertFromMsats (convertToMsats (b : ℚ) "SAT" gr) "SAT" gr
        = (b : ℚ)) := by
  have key : ∀ b : ℤ, (⌊(b : ℚ) + 1 / 2⌋ : ℤ) = b := by
    intro b
    rw [show ((b : ℚ) + 1 / 2) = (1 / 2 : ℚ) + (b : ℤ) by push_cast; ring,
        Int.floor_add_int]
    norm_num
  have hsat : ∀ b : ℤ,
      convertFromMsats (convertToMsats (b : ℚ) "SAT" gr) "SAT" gr = (b : ℚ) := by
    intro b
    unfold convertToMsats convertFromMsats
    rw [if_pos rfl, if_pos rfl]
    have hb : ((b : ℚ) * 1000) / 1000 = (b : ℚ) := by ring
    unfold jsRound
    rw [hb, key b]
  refine ⟨?_, hsat⟩
  have hrpos : 0 < r := by nlinarith
  unfold convertToMsats convertFromMsats
  rw [if_neg hCs, if_neg hCb, if_neg hCs, if_neg hCb, hr, hrInv]
  have hmdef : jsRound ((a : ℚ) * r * 1000)
      = ⌊(a : ℚ) * (1000 * r) + 1 / 2⌋ := by
    unfold jsRound
    ring_nf
  have hcore := double_round_cancel a (jsRound ((a : ℚ) * r * 1000)) (1000 * r)
    hbig hmdef
  have harg : ((jsRound ((a : ℚ) * r * 1000) : ℚ)) / 1000 * (1 / r)
      = ((jsRound ((a : ℚ) * r * 1000) : ℚ)) / (1000 * r) := by
    rw [mul_one_div, div_div]
  rw [harg]
  unfold jsRound
  exact_mod_cast hcore

/-- Witness for C7 (amended): a concrete consistent provider with
`USD→SAT` rate `1/2` and amount 7: the round trip returns 7. -/
theorem currency_roundtrip_exact_witness :
    convertFromMsats (convertToMsats ((7 : ℤ) : ℚ) "USD"
        (fun f _ => if f = "USD" then 1 / 2 else 2)) "USD"
      (fun f _ => if f = "USD" then 1 / 2 else 2) = ((7 : ℤ) : ℚ) := by
  exact (currency_roundtrip_exact (fun f _ => if f = "USD" then 1 / 2 else 2)
    "USD" (1 / 2) 7 (by decide) (by decide)
    (by show (if ("USD" : String) = "USD" then (1 : ℚ) / 2 else 2) = 1 / 2
        rw [if_pos rfl])
    (by show (if ("SAT" : String) = "USD" then (1 : ℚ) / 2 else 2) = 1 / (1 / 2)
        rw [if_neg (by decide : ¬ ("SAT" : String) = "USD")]
        norm_num)
    (by norm_num)).1

/-! ## Supporting lemmas: heap -/

theorem getElem?_set_self_of_lt {α : Type} (l : List α) (n : ℕ) (b : α)
    (h : n < l.length) : (l.set n b)[n]? = some b :=
  List.getElem?_set_eq_of_lt b h

/-! ## C3 fixtures: deactivation with a simultaneous domain change -/

/-- The patch `{active: false, domain: "cd.example.com"}`. -/
def patchDeactMove : TenantConfig :=
  { emptyConfig with active := some false, domain := some "cd.example.com" }

/-- State after adding the `ab.example.com` tenant. -/
def stAB : TenantManager := (TenantManager.empty.addTenant cfgAB 0).1

/-- State after `updateTenant("t-ab", {active:false, domain:"cd.example.com"})`. -/
def stAfter : TenantManager := (stAB.updateTenant "t-ab" patchDeactMove 1).1

/-- Deactivating `updateTenant` removes the by-id entry and the entry under
the tenant's post-update domain. -/
theorem updateTenant_deactivated_removes_entries (m : TenantManager)
    (tenantId : String) (u : TenantConfig) (now r : ℕ)
    (hact : u.active = some false)
    (hres : (m.updateTenant tenantId u now).2 = some r) :
    ∃ t' : Tenant,
      ((m.updateTenant tenantId u now).1).heap[r]? = some t'
      ∧ t'.active = false
      ∧ JsMap.getEntry ((m.updateTenant tenantId u now).1).cacheById t'.id = none
      ∧ JsMap.getEntry ((m.updateTenant tenantId u now).1).cacheByDomain t'.domain
          = none := by
  rcases hg : m.getTenant tenantId false now with ⟨m1, ro⟩
  rcases ro with _ | r'
  · simp [TenantManager.updateTenant, hg] at hres
  · rcases hh : m1.heap[r']? with _ | t
    · simp [TenantManager.updateTenant, hg, hh] at hres
    · have hlt : r' < m1.heap.length := by
        by_contra hge
        rw [List.getElem?_eq_none (by omega)] at hh
        exact Option.noConfusion hh
      have hactive : (t.applyUpdate u now).active = false := by
        simp [Tenant.applyUpdate, hact]
      have hisact : (t.applyUpdate u now).isActive = false := by
        simp [Tenant.isActive, hactive]
      have hsnd : (m.updateTenant tenantId u now).2 = some r' := by
        simp [TenantManager.updateTenant, hg, hh, hisact]
      have hr : r = r' := by rw [hsnd] at hres; exact (Option.some.injEq .. ▸ hres).symm
      refine ⟨t.applyUpdate u now, ?_, hactive, ?_, ?_⟩
      · have hheap : ((m.updateTenant tenantId u now).1).heap
            = m1.heap.set r' (t.applyUpdate u now) := by
          simp [TenantManager.updateTenant, hg, hh, hisact]
        rw [hheap, hr]
        exact getElem?_set_self_of_lt m1.heap r' (t.applyUpdate u now) hlt
      · have hcid : ((m.updateTenant tenantId u now).1).cacheById
            = JsMap.deleteEntry m1.cacheById (t.applyUpdate u now).id := by
          simp [TenantManager.updateTenant, hg, hh, hisact]
        rw [hcid]
        exact getEntry_deleteEntry_self ..
      · have hcbd : ((m.updateTenant tenantId u now).1).cacheByDomain
            = JsMap.deleteEntry m1.cacheByDomain (t.applyUpdate u now).domain := by
          simp [TenantManager.updateTenant, hg, hh, hisact]
        rw [hcbd]
        exact getEntry_deleteEntry_self ..

/-- C3 counterexample: the claim says a deactivating patch removes the
tenant's domain key from the by-domain cache even when the patch also
changes the domain, and that a subsequent `getTenantByDomain` for its
domain returns absent.  Concretely, after
`updateTenant("t-ab", {active:false, domain:"cd.example.com"})` the stale
key `ab.example.com` is still present in the by-domain cache, and
`getTenantByDomain("cd.example.com")` returns the (inactive) record loaded
from storage rather than absent. -/
theorem updateTenant_deactivation_claim_fails :
    JsMap.getEntry stAfter.cacheByDomain "ab.example.com" ≠ none
    ∧ (stAfter.getTenantByDomain "cd.example.com" true 2).2 ≠ none := by
  constructor
  · decide
  · decide

/-- C3 (amended): a deactivating patch always removes the by-id entry and
the by-domain entry under the tenant's *post-update* domain; but when the
patch also changes the domain, the entry under the old domain survives in
the by-domain cache, and a subsequent `getTenantByDomain` for the
tenant's domain does not return absent — it reloads the now-inactive
record from storage (without re-caching it). -/
theorem updateTenant_deactivation_cache_semantics :
    (∀ (m : TenantManager) (tenantId : String) (u : TenantConfig) (now r : ℕ),
      u.active = some false →
      (m.updateTenant tenantId u now).2 = some r →
      ∃ t' : Tenant,
        ((m.updateTenant tenantId u now).1).heap[r]? = some t'
        ∧ t'.active = false
        ∧ JsMap.getEntry ((m.updateTenant tenantId u now).1).cacheById t'.id = none
        ∧ JsMap.getEntry ((m.updateTenant tenantId u now).1).cacheByDomain t'.domain
            = none)
    ∧ JsMap.getEntry stAfter.cacheByDomain "ab.example.com" = some 1
    ∧ Option.map Tenant.active
        ((stAfter.getTenantByDomain "cd.example.com" true 2).2.bind
          (fun r => ((stAfter.getTenantByDomain "cd.example.com" true 2).1).heap[r]?))
        = some false := by
  refine ⟨updateTenant_deactivated_removes_entries, by decide, by decide⟩

/-- Witness for C3 (amended): the general removal statement applied to the
concrete deactivating, domain-changing patch. -/
theorem updateTenant_deactivation_cache_semantics_witness :
    ∃ t' : Tenant,
      ((stAB.updateTenant "t-ab" patchDeactMove 1).1).heap[1]? = some t'
      ∧ t'.active = false
      ∧ JsMap.getEntry ((stAB.updateTenant "t-ab" patchDeactMove 1).1).cacheById
          t'.id = none
      ∧ JsMap.getEntry ((stAB.updateTenant "t-ab" patchDeactMove 1).1).cacheByDomain
          t'.domain = none := by
  exact updateTenant_deactivation_cache_semantics.1 stAB "t-ab" patchDeactMove 1 1
    rfl (by decide)

/-! ## Supporting lemmas: C4 public-field round trip -/

theorem append_ne_empty_left (a b : String) (ha : a ≠ "") : a ++ b ≠ "" := by
  intro h
  apply ha
  rw [String.ext_iff] at h ⊢
  rw [String.data_append] at h
  simpa using List.append_eq_nil.mp h |>.1

theorem append_ne_empty_right (a b : String) (hb : b ≠ "") : a ++ b ≠ "" := by
  intro h
  apply hb
  rw [String.ext_iff] at h ⊢
  rw [String.data_append] at h
  simpa using List.append_eq_nil.mp h |>.2

theorem orDefault_ne_empty (o : Option String) (dflt : String)
    (hd : dflt ≠ "") : orDefault o dflt ≠ "" := by
  unfold orDefault
  cases o with
  | none => exact hd
  | some s =>
    by_cases hs : s = ""
    · simp [hs, hd]
    · simp [hs]

theorem ofConfig_baseUrl_ne (c : TenantConfig) (now : ℕ) :
    (Tenant.ofConfig c now).baseUrl ≠ "" := by
  unfold Tenant.ofConfig
  exact orDefault_ne_empty _ _
    (append_ne_empty_left "https://" _ (by decide))

theorem ofConfig_tables_ne (c : TenantConfig) (now : ℕ) :
    (Tenant.ofConfig c now).tables.users ≠ ""
    ∧ (Tenant.ofConfig c now).tables.payments ≠ ""
    ∧ (Tenant.ofConfig c now).tables.utxos ≠ "" := by
  unfold Tenant.ofConfig
  refine ⟨orDefault_ne_empty _ _ ?_, orDefault_ne_empty _ _ ?_,
          orDefault_ne_empty _ _ ?_⟩
  · exact append_ne_empty_right _ "_users" (by decide)
  · exact append_ne_empty_right _ "_payments" (by decide)
  · exact append_ne_empty_right _ "_utxos" (by decide)

/-- Re-reading a stored public document with the separately loaded keys
reconstructs the tenant (its public fields verbatim, keys as loaded). -/
theorem fromDocument_toJSON (t : Tenant) (k : TenantKeys) (now2 : ℕ)
    (hb : t.baseUrl ≠ "") (hu : t.tables.users ≠ "")
    (hp : t.tables.payments ≠ "") (hx : t.tables.utxos ≠ "") :
    Tenant.fromDocument t.toJSON k now2 = { t with keys := k } := by
  unfold Tenant.fromDocument Tenant.ofConfig configOfDoc Tenant.toJSON
  simp [orDefault, hb, hu, hp, hx]

/-- C4: for every valid tenant configuration, `addTenant` then
`getTenant` on a fresh directory returns a record equal (in all public
fields — indeed in all fields) to the tenant constructed from the
configuration; and the stored/serialised form (`toJSON`) of every tenant
carries only the public signing and encryption keys, never
`signingPrivateKey` or `encryptionPrivateKey`. -/
theorem add_then_get_roundtrip (c : TenantConfig) (now : ℕ)
    (hid : truthy c.id = true) (hname : truthy c.name = true)
    (hdom : truthy c.domain = true) (hkeys : c.keys.isSome = true) :
    ((TenantManager.empty.addTenant c now).2 = .ok 0)
    ∧ (∃ r2,
        ((TenantManager.empty.addTenant c now).1.getTenant (c.id.getD "") true now).2
          = some r2
        ∧ (((TenantManager.empty.addTenant c now).1.getTenant (c.id.getD "") true
              now).1).heap[r2]? = some (Tenant.ofConfig c now))
    ∧ (∀ t : Tenant,
        JsMap.getEntry t.toJSON.keysObj "signingPrivateKey" = none
        ∧ JsMap.getEntry t.toJSON.keysObj "encryptionPrivateKey" = none) := by
  obtain ⟨k, hk⟩ := Option.isSome_iff_exists.mp hkeys
  have hkn : c.keys.isNone = false := by rw [hk]; rfl
  have hprivacy : ∀ t : Tenant,
      JsMap.getEntry t.toJSON.keysObj "signingPrivateKey" = none
      ∧ JsMap.getEntry t.toJSON.keysObj "encryptionPrivateKey" = none := by
    intro t
    have h1 : ¬ ("signingPublicKey" : String) = "signingPrivateKey" := by decide
    have h2 : ¬ ("encryptionPublicKey" : String) = "signingPrivateKey" := by decide
    have h3 : ¬ ("signingPublicKey" : String) = "encryptionPrivateKey" := by decide
    have h4 : ¬ ("encryptionPublicKey" : String) = "encryptionPrivateKey" := by decide
    constructor <;> simp [Tenant.toJSON, JsMap.getEntry, h1, h2, h3, h4]
  have htid : (Tenant.ofConfig c now).id = c.id.getD "" := rfl
  have htkeys : (Tenant.ofConfig c now).keys = k := by
    show c.keys.getD dummyKeys = k
    rw [hk]
    rfl
  by_cases hact : (Tenant.ofConfig c now).isActive
  · -- active tenant: cached on add, `getTenant` hits the cache
    have hadd : TenantManager.empty.addTenant c now
        = ({ db := { tenants := [(Tenant.ofConfig c now).toJSON],
                     tenantKeys := [⟨(Tenant.ofConfig c now).id, k, now⟩] },
             heap := [Tenant.ofConfig c now],
             cacheById := [((Tenant.ofConfig c now).id, 0)],
             cacheByDomain := [((Tenant.ofConfig c now).domain, 0)] }, .ok 0) := by
      unfold TenantManager.addTenant TenantManager.empty DbState.findTenantDoc
      simp [hid, hname, hdom, hkn, hact, saveKeysDb, JsMap.setEntry, hk]
    refine ⟨by rw [hadd], ⟨0, ?_, ?_⟩, hprivacy⟩
    · rw [hadd]
      unfold TenantManager.getTenant
      simp [JsMap.getEntry, htid]
    · rw [hadd]
      unfold TenantManager.getTenant
      simp [JsMap.getEntry, htid]
  · -- inactive tenant: not cached, `getTenant` reloads it from storage
    have hadd : TenantManager.empty.addTenant c now
        = ({ db := { tenants := [(Tenant.ofConfig c now).toJSON],
                     tenantKeys := [⟨(Tenant.ofConfig c now).id, k, now⟩] },
             heap := [Tenant.ofConfig c now],
             cacheById := [], cacheByDomain := [] }, .ok 0) := by
      unfold TenantManager.addTenant TenantManager.empty DbState.findTenantDoc
      simp [hid, hname, hdom, hkn, hact, saveKeysDb, JsMap.setEntry, hk]
    have hround : Tenant.fromDocument (Tenant.ofConfig c now).toJSON k now
        = Tenant.ofConfig c now := by
      rw [fromDocument_toJSON _ _ _ (ofConfig_baseUrl_ne c now)
        (ofConfig_tables_ne c now).1 (ofConfig_tables_ne c now).2.1
        (ofConfig_tables_ne c now).2.2]
      rw [← htkeys]
    have hdocid : (Tenant.ofConfig c now).toJSON.id = c.id.getD "" := rfl
    refine ⟨by rw [hadd], ⟨1, ?_, ?_⟩, hprivacy⟩
    · rw [hadd]
      unfold TenantManager.getTenant DbState.findTenantDoc loadKeys
      simp [JsMap.getEntry, List.find?, hdocid, htid, hround, hact]
    · rw [hadd]
      unfold TenantManager.getTenant DbState.findTenantDoc loadKeys
      simp [JsMap.getEntry, List.find?, hdocid, htid, hround, hact]

/-- Witness for C4: the round trip for the concrete `ab.example.com`
configuration. -/
theorem add_then_get_roundtrip_witness :
    ((TenantManager.empty.addTenant cfgAB 0).2 = .ok 0)
    ∧ (∃ r2,
        ((TenantManager.empty.addTenant cfgAB 0).1.getTenant (cfgAB.id.getD "")
            true 0).2 = some r2
        ∧ (((TenantManager.empty.addTenant cfgAB 0).1.getTenant (cfgAB.id.getD "")
              true 0).1).heap[r2]? = some (Tenant.ofConfig cfgAB 0)) := by
  have h := add_then_get_roundtrip cfgAB 0 (by decide) (by decide) (by decide)
    (by decide)
  exact ⟨h.1, h.2.1⟩

/-! ## Supporting lemmas: C5 -/

/-- The four fields `addTenant` requires. -/
def validTenantConfig (c : TenantConfig) : Prop :=
  truthy c.id = true ∧ truthy c.name = true ∧ truthy c.domain = true
  ∧ c.keys.isSome = true

instance (c : TenantConfig) : Decidable (validTenantConfig c) := by
  unfold validTenantConfig
  infer_instance

theorem addTenant_missing_field (m : TenantManager) (c : TenantConfig) (now : ℕ)
    (hmiss : truthy c.id = false ∨ truthy c.name = false
      ∨ truthy c.domain = false ∨ c.keys = none) :
    ∃ msg, m.addTenant c now = (m, .error (.validation msg)) := by
  unfold TenantManager.addTenant
  by_cases h1 : truthy c.id = true
  · by_cases h2 : truthy c.name = true
    · by_cases h3 : truthy c.domain = true
      · have h4 : c.keys = none := by
          rcases hmiss with h | h | h | h <;> simp_all
        exact ⟨"Tenant keys are required", by simp [h1, h2, h3, h4]⟩
      · exact ⟨"Tenant domain is required", by simp [h1, h2, h3]⟩
    · exact ⟨"Tenant name is required", by simp [h1, h2]⟩
  · exact ⟨"Tenant id is required", by simp [h1]⟩

theorem addTenant_empty_db (c : TenantConfig) (now : ℕ)
    (hv : validTenantConfig c) :
    ((TenantManager.empty.addTenant c now).1).db.tenants
      = [(Tenant.ofConfig c now).toJSON]
    ∧ (TenantManager.empty.addTenant c now).2 = .ok 0 := by
  obtain ⟨hid, hname, hdom, hkeys⟩ := hv
  obtain ⟨k, hk⟩ := Option.isSome_iff_exists.mp hkeys
  have hkn : c.keys.isNone = false := by rw [hk]; rfl
  unfold TenantManager.addTenant TenantManager.empty DbState.findTenantDoc
  by_cases hact : (Tenant.ofConfig c now).isActive <;>
    simp [hid, hname, hdom, hkn, hact, hk]

theorem addTenant_conflict_second (c1 c2 : TenantConfig) (now1 now2 : ℕ)
    (hv1 : validTenantConfig c1) (hv2 : validTenantConfig c2)
    (hshare : c1.id = c2.id ∨ c1.domain = c2.domain) :
    (TenantManager.empty.addTenant c1 now1).2 = .ok 0
    ∧ ∃ f, ((TenantManager.empty.addTenant c1 now1).1).addTenant c2 now2
        = ((TenantManager.empty.addTenant c1 now1).1, .error (.conflict f)) := by
  obtain ⟨hdb1, hok1⟩ := addTenant_empty_db c1 now1 hv1
  obtain ⟨hid2, hname2, hdom2, hkeys2⟩ := hv2
  obtain ⟨k2, hk2⟩ := Option.isSome_iff_exists.mp hkeys2
  have hkn2 : c2.keys.isNone = false := by rw [hk2]; rfl
  refine ⟨hok1, ?_⟩
  have hpred : ((Tenant.ofConfig c1 now1).toJSON.id = c2.id.getD ""
      ∨ (Tenant.ofConfig c1 now1).toJSON.domain = c2.domain.getD "") := by
    rcases hshare with h | h
    · left
      show c1.id.getD "" = c2.id.getD ""
      rw [h]
    · right
      show c1.domain.getD "" = c2.domain.getD ""
      rw [h]
  set st1 := (TenantManager.empty.addTenant c1 now1).1 with hst1def
  have hfind : DbState.findTenantDoc st1.db
      (fun d => d.id = c2.id.getD "" ∨ d.domain = c2.domain.getD "")
      = some ((Tenant.ofConfig c1 now1).toJSON) := by
    unfold DbState.findTenantDoc
    rw [hdb1]
    rw [List.find?_cons_of_pos]
    simpa using hpred
  unfold TenantManager.addTenant
  rw [hfind]
  by_cases hidhit : (Tenant.ofConfig c1 now1).toJSON.id = c2.id.getD ""
  · exact ⟨"id", by simp [hid2, hname2, hdom2, hkn2, hidhit]⟩
  · exact ⟨"domain", by simp [hid2, hname2, hdom2, hkn2, hidhit]⟩

theorem addTenant_conflict_db_only (m m' : TenantManager) (c : TenantConfig)
    (now : ℕ) (hdb : m.db = m'.db) :
    isConflictOutcome (m.addTenant c now).2
      = isConflictOutcome (m'.addTenant c now).2 := by
  unfold TenantManager.addTenant
  rw [hdb]
  rcases hf : DbState.findTenantDoc m'.db
      (fun d => d.id = c.id.getD "" ∨ d.domain = c.domain.getD "") with _ | ex <;>
    split_ifs <;> try simp [hf, isConflictOutcome]
  all_goals split_ifs <;> simp [isConflictOutcome]

/-- C5: `addTenant` fails with a ValidationError when id, name, domain or
keys is missing, leaving the state (hence storage) untouched; for any two
valid configurations sharing an id or a domain, whichever is inserted
first succeeds on a fresh directory and the second always fails with a
ConflictError, leaving the state untouched; and the conflict verdict is a
function of the durable store alone — two managers with the same store but
different caches produce the same verdict. -/
theorem addTenant_validation_and_conflict :
    (∀ (m : TenantManager) (c : TenantConfig) (now : ℕ),
      (truthy c.id = false ∨ truthy c.name = false ∨ truthy c.domain = false
        ∨ c.keys = none) →
      ∃ msg, m.addTenant c now = (m, .error (.validation msg)))
    ∧ (∀ (c1 c2 : TenantConfig) (now1 now2 : ℕ),
      validTenantConfig c1 → validTenantConfig c2 →
      (c1.id = c2.id ∨ c1.domain = c2.domain) →
      (TenantManager.empty.addTenant c1 now1).2 = .ok 0
      ∧ ∃ f, ((TenantManager.empty.addTenant c1 now1).1).addTenant c2 now2
          = ((TenantManager.empty.addTenant c1 now1).1, .error (.conflict f)))
    ∧ (∀ (m m' : TenantManager) (c : TenantConfig) (now : ℕ), m.db = m'.db →
      isConflictOutcome (m.addTenant c now).2
        = isConflictOutcome (m'.addTenant c now).2) :=
  ⟨addTenant_missing_field, addTenant_conflict_second, addTenant_conflict_db_only⟩

/-- Witness for C5: inserting two concrete tenants sharing the domain
`ab.example.com` (in this order) has the first succeed and the second fail
with a ConflictError without changing the state. -/
theorem addTenant_validation_and_conflict_witness :
    (TenantManager.empty.addTenant cfgAB 0).2 = .ok 0
    ∧ ∃ f, ((TenantManager.empty.addTenant cfgAB 0).1).addTenant
          { cfgAB with id := some "t-ab2" } 1
        = ((TenantManager.empty.addTenant cfgAB 0).1, .error (.conflict f)) := by
  exact addTenant_validation_and_conflict.2.1 cfgAB
    { cfgAB with id := some "t-ab2" } 0 1 (by decide) (by decide)
    (Or.inr rfl)

/-! ## Supporting lemmas: C6 (refreshCache characterisation) -/

theorem getEntry_mem {β : Type} (m : JsMap β) (k : String) (v : β)
    (h : JsMap.getEntry m k = some v) : (k, v) ∈ m := by
  induction m with
  | nil => exact absurd h (by simp [JsMap.getEntry])
  | cons kv rest ih =>
    by_cases hk : kv.1 = k
    · rw [JsMap.getEntry, if_pos hk] at h
      have hv : kv.2 = v := by injection h
      have hkv : (k, v) = kv := by
        obtain ⟨a, b⟩ := kv
        simp only [] at hk hv
        rw [← hk, ← hv]
      rw [hkv]
      exact List.mem_cons_self kv rest
    · rw [JsMap.getEntry, if_neg hk] at h
      exact List.mem_cons_of_mem kv (ih h)

theorem mem_setEntry_cases {β : Type} (m : JsMap β) (k : String) (v : β)
    (kv : String × β) (h : kv ∈ JsMap.setEntry m k v) :
    kv = (k, v) ∨ kv ∈ m := by
  induction m with
  | nil => simpa [JsMap.setEntry] using h
  | cons kv0 rest ih =>
    by_cases hk : kv0.1 = k
    · rw [JsMap.setEntry, if_pos hk] at h
      rcases List.mem_cons.mp h with h | h
      · exact Or.inl h
      · exact Or.inr (List.mem_cons_of_mem kv0 h)
    · rw [JsMap.setEntry, if_neg hk] at h
      rcases List.mem_cons.mp h with h | h
      · exact Or.inr (h ▸ List.mem_cons_self kv0 rest)
      · rcases ih h with h | h
        · exact Or.inl h
        · exact Or.inr (List.mem_cons_of_mem kv0 h)

/-- The `refreshCache` loop puts an id into the by-id map exactly when it
was already there or an incoming document carries it and its keys load. -/
theorem refreshLoop_isSome_id (db : DbState) (now : ℕ) :
    ∀ (docs : List TenantDoc) (h : List Tenant) (cid cbd : JsMap ℕ)
      (id : String),
      (JsMap.getEntry (refreshLoop db now docs h cid cbd).2.1 id).isSome
      ↔ ((JsMap.getEntry cid id).isSome
        ∨ ∃ doc ∈ docs, doc.id = id ∧ (loadKeys db doc.id).isSome) := by
  intro docs
  induction docs with
  | nil => intro h cid cbd id; simp [refreshLoop]
  | cons doc rest ih =>
    intro h cid cbd id
    rcases hk : loadKeys db doc.id with _ | k
    · rw [refreshLoop, hk]
      rw [ih]
      simp [List.exists_mem_cons_iff, hk]
    · rw [refreshLoop, hk]
      rw [ih]
      have hfid : (Tenant.fromDocument doc k now).id = doc.id := rfl
      by_cases hid : doc.id = id
      · subst hid
        simp [hfid, getEntry_setEntry_self, List.exists_mem_cons_iff, hk]
      · rw [hfid, getEntry_setEntry_ne _ _ _ _ (fun hc => hid hc.symm)]
        simp [List.exists_mem_cons_iff, hk, hid]

/-- Same for the by-domain map. -/
theorem refreshLoop_isSome_domain (db : DbState) (now : ℕ) :
    ∀ (docs : List TenantDoc) (h : List Tenant) (cid cbd : JsMap ℕ)
      (d : String),
      (JsMap.getEntry (refreshLoop db now docs h cid cbd).2.2 d).isSome
      ↔ ((JsMap.getEntry cbd d).isSome
        ∨ ∃ doc ∈ docs, doc.domain = d ∧ (loadKeys db doc.id).isSome) := by
  intro docs
  induction docs with
  | nil => intro h cid cbd d; simp [refreshLoop]
  | cons doc rest ih =>
    intro h cid cbd d
    rcases hk : loadKeys db doc.id with _ | k
    · rw [refreshLoop, hk]
      rw [ih]
      simp [List.exists_mem_cons_iff, hk]
    · rw [refreshLoop, hk]
      rw [ih]
      have hfdom : (Tenant.fromDocument doc k now).domain = doc.domain := rfl
      by_cases hdom : doc.domain = d
      · subst hdom
        simp [hfdom, getEntry_setEntry_self, List.exists_mem_cons_iff, hk]
      · rw [hfdom, getEntry_setEntry_ne _ _ _ _ (fun hc => hdom hc.symm)]
        simp [List.exists_mem_cons_iff, hk, hdom]

/-- Every reference either cache map holds after the loop points at an
active tenant in the loop's heap. -/
theorem refreshLoop_entries_active (db : DbState) (now : ℕ) :
    ∀ (docs : List TenantDoc) (h : List Tenant) (cid cbd : JsMap ℕ),
      (∀ doc ∈ docs, doc.active = true) →
      (∀ kv ∈ cid, ∃ t : Tenant, h[kv.2]? = some t ∧ t.active = true) →
      (∀ kv ∈ cbd, ∃ t : Tenant, h[kv.2]? = some t ∧ t.active = true) →
      (∀ kv ∈ (refreshLoop db now docs h cid cbd).2.1,
        ∃ t : Tenant, ((refreshLoop db now docs h cid cbd).1)[kv.2]? = some t
          ∧ t.active = true)
      ∧ (∀ kv ∈ (refreshLoop db now docs h cid cbd).2.2,
        ∃ t : Tenant, ((refreshLoop db now docs h cid cbd).1)[kv.2]? = some t
          ∧ t.active = true) := by
  intro docs
  induction docs with
  | nil =>
    intro h cid cbd _ hcid hcbd
    rw [refreshLoop]
    exact ⟨hcid, hcbd⟩
  | cons doc rest ih =>
    intro h cid cbd hdocs hcid hcbd
    rcases hk : loadKeys db doc.id with _ | k
    · rw [refreshLoop, hk]
      exact ih h cid cbd (fun d hd => hdocs d (List.mem_cons_of_mem doc hd))
        hcid hcbd
    · rw [refreshLoop, hk]
      have hactive : (Tenant.fromDocument doc k now).active = true := by
        have : (Tenant.fromDocument doc k now).active = doc.active := rfl
        rw [this]
        exact hdocs doc (List.mem_cons_self doc rest)
      have hstep : ∀ kv ∈ cid, ∃ t : Tenant,
          (h ++ [Tenant.fromDocument doc k now])[kv.2]? = some t
          ∧ t.active = true := by
        intro kv hkv
        obtain ⟨t, ht, ha⟩ := hcid kv hkv
        have hlt : kv.2 < h.length := by
          by_contra hge
          rw [List.getElem?_eq_none (by omega)] at ht
          exact Option.noConfusion ht
        refine ⟨t, ?_, ha⟩
        rw [List.getElem?_append]
        simp [hlt, ht]
      have hstepd : ∀ kv ∈ cbd, ∃ t : Tenant,
          (h ++ [Tenant.fromDocument doc k now])[kv.2]? = some t
          ∧ t.active = true := by
        intro kv hkv
        obtain ⟨t, ht, ha⟩ := hcbd kv hkv
        have hlt : kv.2 < h.length := by
          by_contra hge
          rw [List.getElem?_eq_none (by omega)] at ht
          exact Option.noConfusion ht
        refine ⟨t, ?_, ha⟩
        rw [List.getElem?_append]
        simp [hlt, ht]
      have hnew : ∀ kv ∈ JsMap.setEntry cid (Tenant.fromDocument doc k now).id
            h.length,
          ∃ t : Tenant, (h ++ [Tenant.fromDocument doc k now])[kv.2]? = some t
            ∧ t.active = true := by
        intro kv hkv
        rcases mem_setEntry_cases _ _ _ _ hkv with hkv' | hkv'
        · refine ⟨Tenant.fromDocument doc k now, ?_, hactive⟩
          rw [hkv']
          exact List.getElem?_concat_length h _
        · exact hstep kv hkv'
      have hnewd : ∀ kv ∈ JsMap.setEntry cbd
            (Tenant.fromDocument doc k now).domain h.length,
          ∃ t : Tenant, (h ++ [Tenant.fromDocument doc k now])[kv.2]? = some t
            ∧ t.active = true := by
        intro kv hkv
        rcases mem_setEntry_cases _ _ _ _ hkv with hkv' | hkv'
        · refine ⟨Tenant.fromDocument doc k now, ?_, hactive⟩
          rw [hkv']
          exact List.getElem?_concat_length h _
        · exact hstepd kv hkv'
      exact ih (h ++ [Tenant.fromDocument doc k now]) _ _
        (fun d hd => hdocs d (List.mem_cons_of_mem doc hd)) hnew hnewd

/-- C6: after a completed `refreshCache()`, storage is untouched and the
two cache maps contain exactly the tenants that are active in storage and
whose key material loads (an id or domain is cached iff some stored
document carries it, is active, and its keys load — so a key-load failure
for one tenant never blocks another), and every cached record is active. -/
theorem refreshCache_exactly_active_keyed (m : TenantManager) (now : ℕ) :
    (m.refreshCache now).db = m.db
    ∧ (∀ id, (TenantManager.cachedById (m.refreshCache now) id).isSome = true
        ↔ ∃ doc ∈ m.db.tenants, doc.id = id ∧ doc.active = true
            ∧ (loadKeys m.db doc.id).isSome = true)
    ∧ (∀ d, (TenantManager.cachedByDomain (m.refreshCache now) d).isSome = true
        ↔ ∃ doc ∈ m.db.tenants, doc.domain = d ∧ doc.active = true
            ∧ (loadKeys m.db doc.id).isSome = true)
    ∧ (∀ id t, TenantManager.cachedById (m.refreshCache now) id = some t →
        t.active = true) := by
  have hdocs : ∀ doc ∈ m.db.tenants.filter (·.active),
      doc.active = true := by
    intro doc hd
    simpa using (List.mem_filter.mp hd).2
  have hAct := refreshLoop_entries_active m.db now
    (m.db.tenants.filter (·.active)) m.heap [] [] hdocs
    (by intro kv hkv; exact absurd hkv (List.not_mem_nil kv))
    (by intro kv hkv; exact absurd hkv (List.not_mem_nil kv))
  have hcid : (m.refreshCache now).cacheById
      = (refreshLoop m.db now (m.db.tenants.filter (·.active))
          m.heap [] []).2.1 := rfl
  have hcbd : (m.refreshCache now).cacheByDomain
      = (refreshLoop m.db now (m.db.tenants.filter (·.active))
          m.heap [] []).2.2 := rfl
  have hheap : (m.refreshCache now).heap
      = (refreshLoop m.db now (m.db.tenants.filter (·.active))
          m.heap [] []).1 := rfl
  have hmemiff : ∀ (p : TenantDoc → Prop),
      (∃ doc ∈ m.db.tenants.filter (·.active), p doc)
      ↔ ∃ doc ∈ m.db.tenants, doc.active = true ∧ p doc := by
    intro p
    constructor
    · rintro ⟨doc, hd, hp⟩
      obtain ⟨hmem, hact⟩ := List.mem_filter.mp hd
      exact ⟨doc, hmem, by simpa using hact, hp⟩
    · rintro ⟨doc, hmem, hact, hp⟩
      exact ⟨doc, List.mem_filter.mpr ⟨hmem, by simpa using hact⟩, hp⟩
  refine ⟨rfl, ?_, ?_, ?_⟩
  · intro id
    constructor
    · intro hs
      unfold TenantManager.cachedById at hs
      rcases hg : JsMap.getEntry (m.refreshCache now).cacheById id with _ | r
      · rw [hg] at hs
        exact absurd hs (by simp)
      · have : (JsMap.getEntry (m.refreshCache now).cacheById id).isSome := by
          rw [hg]; rfl
        rw [hcid] at this
        have hloop := (refreshLoop_isSome_id m.db now _ m.heap [] [] id).mp this
        rcases hloop with hbad | hex
        · exact absurd hbad (by simp [JsMap.getEntry])
        · obtain ⟨doc, hmem, hact2, hp⟩ := (hmemiff
            (fun doc => doc.id = id ∧ (loadKeys m.db doc.id).isSome = true)).mp
            (by obtain ⟨doc, hd, h1, h2⟩ := hex; exact ⟨doc, hd, h1, h2⟩)
          exact ⟨doc, hmem, hp.1, hact2, hp.2⟩
    · rintro ⟨doc, hmem, hid, hact, hkeys⟩
      have hex : ∃ doc ∈ m.db.tenants.filter (·.active),
          doc.id = id ∧ (loadKeys m.db doc.id).isSome = true :=
        (hmemiff (fun doc => doc.id = id ∧ (loadKeys m.db doc.id).isSome = true)).mpr
          ⟨doc, hmem, hact, hid, hkeys⟩
      have hs := (refreshLoop_isSome_id m.db now _ m.heap [] [] id).mpr
        (Or.inr hex)
      rcases hg : JsMap.getEntry (refreshLoop m.db now
          (m.db.tenants.filter (·.active)) m.heap [] []).2.1 id with _ | r
      · rw [hg] at hs
        exact absurd hs (by simp)
      · obtain ⟨t, ht, _⟩ := hAct.1 (id, r) (getEntry_mem _ _ _ hg)
        unfold TenantManager.cachedById
        rw [hcid, hg]
        simp [hheap ▸ ht]
  · intro d
    constructor
    · intro hs
      unfold TenantManager.cachedByDomain at hs
      rcases hg : JsMap.getEntry (m.refreshCache now).cacheByDomain d with _ | r
      · rw [hg] at hs
        exact absurd hs (by simp)
      · have : (JsMap.getEntry (m.refreshCache now).cacheByDomain d).isSome := by
          rw [hg]; rfl
        rw [hcbd] at this
        have hloop := (refreshLoop_isSome_domain m.db now _ m.heap [] [] d).mp this
        rcases hloop with hbad | hex
        · exact absurd hbad (by simp [JsMap.getEntry])
        · obtain ⟨doc, hmem, hact2, hp⟩ := (hmemiff
            (fun doc => doc.domain = d ∧ (loadKeys m.db doc.id).isSome = true)).mp
            (by obtain ⟨doc, hd, h1, h2⟩ := hex; exact ⟨doc, hd, h1, h2⟩)
          exact ⟨doc, hmem, hp.1, hact2, hp.2⟩
    · rintro ⟨doc, hmem, hdq, hact, hkeys⟩
      have hex : ∃ doc ∈ m.db.tenants.filter (·.active),
          doc.domain = d ∧ (loadKeys m.db doc.id).isSome = true :=
        (hmemiff (fun doc => doc.domain = d ∧ (loadKeys m.db doc.id).isSome = true)).mpr
          ⟨doc, hmem, hact, hdq, hkeys⟩
      have hs := (refreshLoop_isSome_domain m.db now _ m.heap [] [] d).mpr
        (Or.inr hex)
      rcases hg : JsMap.getEntry (refreshLoop m.db now
          (m.db.tenants.filter (·.active)) m.heap [] []).2.2 d with _ | r
      · rw [hg] at hs
        exact absurd hs (by simp)
      · obtain ⟨t, ht, _⟩ := hAct.2 (d, r) (getEntry_mem _ _ _ hg)
        unfold TenantManager.cachedByDomain
        rw [hcbd, hg]
        simp [hheap ▸ ht]
  · intro id t hsome
    unfold TenantManager.cachedById at hsome
    rcases hg : JsMap.getEntry (m.refreshCache now).cacheById id with _ | r
    · rw [hg] at hsome
      simp [Option.bind] at hsome
    · rw [hg] at hsome
      simp only [Option.some_bind] at hsome
      obtain ⟨t', ht', ha'⟩ := hAct.1 (id, r) (getEntry_mem _ _ _ (hcid ▸ hg))
      have : t' = t := by
        rw [← hheap] at ht'
        rw [ht'] at hsome
        injection hsome
      rw [← this]
      exact ha'

/-- Witness for C6 (it quantifies over implications): after refreshing the
concrete one-tenant directory, the tenant is cached by id. -/
theorem refreshCache_exactly_active_keyed_witness :
    (TenantManager.cachedById (stAB.refreshCache 3) "t-ab").isSome = true := by
  refine ((refreshCache_exactly_active_keyed stAB 3).2.1 "t-ab").mpr ?_
  exact ⟨(Tenant.ofConfig cfgAB 0).toJSON, by decide, by decide, by decide,
    by decide⟩

/-! ## Supporting lemmas: C9 (observable refresh states) -/

theorem getLast_cons_of_ne_nil {α : Type} (a : α) (l : List α) (h : l ≠ []) :
    (a :: l).getLast? = l.getLast? := by
  cases l with
  | nil => exact absurd rfl h
  | cons b t => rfl

theorem refreshLoopStates_ne_nil (db : DbState) (now : ℕ)
    (docs : List TenantDoc) (h : List Tenant) (cid cbd : JsMap ℕ) :
    refreshLoopStates db now docs h cid cbd ≠ [] := by
  cases docs <;> simp [refreshLoopStates]

theorem refreshLoopStates_head (db : DbState) (now : ℕ)
    (docs : List TenantDoc) (h : List Tenant) (cid cbd : JsMap ℕ) :
    (refreshLoopStates db now docs h cid cbd).head? = some (h, cid, cbd) := by
  cases docs <;> rfl

theorem refreshLoopStates_getLast (db : DbState) (now : ℕ) :
    ∀ (docs : List TenantDoc) (h : List Tenant) (cid cbd : JsMap ℕ),
      (refreshLoopStates db now docs h cid cbd).getLast?
        = some (refreshLoop db now docs h cid cbd) := by
  intro docs
  induction docs with
  | nil => intro h cid cbd; rfl
  | cons doc rest ih =>
    intro h cid cbd
    rcases hk : loadKeys db doc.id with _ | k
    · rw [refreshLoopStates, refreshLoop, hk]
      rw [getLast_cons_of_ne_nil _ _
        (refreshLoopStates_ne_nil db now rest h cid cbd)]
      exact ih h cid cbd
    · rw [refreshLoopStates, refreshLoop, hk]
      rw [getLast_cons_of_ne_nil _ _
        (refreshLoopStates_ne_nil db now rest
          (h ++ [Tenant.fromDocument doc k now])
          (JsMap.setEntry cid (Tenant.fromDocument doc k now).id h.length)
          (JsMap.setEntry cbd (Tenant.fromDocument doc k now).domain h.length))]
      exact ih (h ++ [Tenant.fromDocument doc k now])
        (JsMap.setEntry cid (Tenant.fromDocument doc k now).id h.length)
        (JsMap.setEntry cbd (Tenant.fromDocument doc k now).domain h.length)

/-- C9 counterexample: the claim says a reader never observes a partially
cleared or repopulated cache during `refreshCache()`.  On the concrete
one-tenant directory there is an observable in-flight state (right after
the synchronous `clear()` calls, while the storage query is pending) whose
active-tenant view is empty — differing from both the pre-refresh and the
post-refresh view. -/
theorem refreshCache_reader_observes_cleared_cache :
    ∃ mid ∈ stAB.refreshObservableStates 5,
      TenantManager.getActiveTenants mid ≠ stAB.getActiveTenants
      ∧ TenantManager.getActiveTenants mid
          ≠ (stAB.refreshCache 5).getActiveTenants := by
  decide

/-- C9 (amended): `refreshCache` is not reader-atomic: it clears both maps
in place before its first await (the first observable in-flight state
always has two empty cache maps), repopulating them only across the
subsequent awaits; the final observable state is the completed refresh.
The spec's required swap-in of freshly built maps is not what the code
does. -/
theorem refreshCache_clears_in_place (m : TenantManager) (now : ℕ) :
    (m.refreshObservableStates now).head?.map
        (fun s => (s.cacheById, s.cacheByDomain)) = some ([], [])
    ∧ (m.refreshObservableStates now).getLast? = some (m.refreshCache now) := by
  constructor
  · unfold TenantManager.refreshObservableStates
    rw [List.head?_map, refreshLoopStates_head]
    rfl
  · unfold TenantManager.refreshObservableStates
    rw [List.getLast?_map, refreshLoopStates_getLast]
    rfl

/-- On success with an active tenant, `addTenant` appends the new object
to the heap and inserts a reference under its id (JS `Map.set`). -/
theorem addTenant_active_caches (m : TenantManager) (c : TenantConfig)
    (now r : ℕ) (hadd : (m.addTenant c now).2 = .ok r)
    (hact : (Tenant.ofConfig c now).isActive = true) :
    ((m.addTenant c now).1).cacheById
      = JsMap.setEntry m.cacheById (Tenant.ofConfig c now).id m.heap.length
    ∧ ((m.addTenant c now).1).heap = m.heap ++ [Tenant.ofConfig c now] := by
  unfold TenantManager.addTenant at hadd ⊢
  rcases hf : DbState.findTenantDoc m.db
      (fun d => d.id = c.id.getD "" ∨ d.domain = c.domain.getD "") with _ | ex <;>
    simp only [hf] at hadd ⊢ <;> split_ifs at hadd ⊢ <;> try simp at hadd
  all_goals simp

/-- C10: the server captures `getActiveTenants()` once at startup; the
hook closes over that array copy.  A tenant added afterwards is visible in
the directory's own active list but the resolver, still scanning the
captured array, rejects its two-character host token with
404 `Not valid tenant`. -/
theorem resolver_misses_tenants_added_after_startup (m : TenantManager)
    (c : TenantConfig) (now : ℕ) (host : String) (r : ℕ)
    (hadd : (m.addTenant c now).2 = .ok r)
    (hact : (Tenant.ofConfig c now).isActive = true)
    (hlen : (hostLabel host).length = 2)
    (hhost : hostLabel host = (Tenant.ofConfig c now).hostname)
    (hnomatch : ∀ t ∈ m.getActiveTenants,
      t.hostname ≠ (Tenant.ofConfig c now).hostname) :
    Tenant.ofConfig c now ∈ ((m.addTenant c now).1).getActiveTenants
    ∧ resolveTenant m.getActiveTenants host
        = .rejected 404 "ERROR" "Not valid tenant" := by
  obtain ⟨hcid, hheap⟩ := addTenant_active_caches m c now r hadd hact
  constructor
  · unfold TenantManager.getActiveTenants
    refine List.mem_filterMap.mpr
      ⟨((Tenant.ofConfig c now).id, m.heap.length), ?_, ?_⟩
    · rw [hcid]
      exact mem_setEntry_self m.cacheById (Tenant.ofConfig c now).id m.heap.length
    · rw [hheap]
      exact List.getElem?_concat_length m.heap (Tenant.ofConfig c now)
  · exact resolveTenant_no_match m.getActiveTenants host
      hlen (fun t ht => hhost ▸ hnomatch t ht)

/-- Witness for C10: a directory holding only the `cd.example.com` tenant
is captured; the `ab.example.com` tenant added afterwards is in the
directory's active list, yet the captured view rejects its host. -/
theorem resolver_misses_tenants_added_after_startup_witness :
    Tenant.ofConfig cfgAB 7
        ∈ ((((TenantManager.empty.addTenant cfgCD 0).1)).addTenant cfgAB 7).1.getActiveTenants
    ∧ resolveTenant ((TenantManager.empty.addTenant cfgCD 0).1).getActiveTenants
        "ab.example.com" = .rejected 404 "ERROR" "Not valid tenant" := by
  exact resolver_misses_tenants_added_after_startup
    (TenantManager.empty.addTenant cfgCD 0).1 cfgAB 7 "ab.example.com" 1
    (by decide) (by decide) (by decide) (by decide) (by decide)

end WdkUma
